import Mathlib

/-!
Shallow embedding of the module-loading core of a WebAssembly interpreter
(`src/wasm/src/core/module.rs`): the binary-decoder section-order state
machine (`RawModule::read`), the nine-step instantiation pipeline
(`Module::resolve_raw_module`), and the runtime store (`Module`).

Definitions are translated from the Rust source.  Components of the
repository that are not under `src/` (the section payload parsers, the
constant-expression evaluator, and the `Table`/`Memory`/`Global` value
objects) are modelled from the specification; each such definition says so
in its doc comment.
-/

set_option autoImplicit false

namespace Wasm

/-! ## Section-order state machine (`RawModule::read`) -/

/-- Section kinds, mirroring `core::SectionType` (ids 0 to 11 of the Wasm
binary format, §4.B of the spec). -/
inductive SectionType where
  | custom
  | typeSec
  | importSec
  | funcSec
  | tableSec
  | memSec
  | globalSec
  | exportSec
  | startSec
  | elemSec
  | codeSec
  | dataSec
  deriving DecidableEq, Repr, Fintype

/-- Numeric id of a section kind, as in the binary format. -/
def sectionNat : SectionType → Nat
  | .custom => 0
  | .typeSec => 1
  | .importSec => 2
  | .funcSec => 3
  | .tableSec => 4
  | .memSec => 5
  | .globalSec => 6
  | .exportSec => 7
  | .startSec => 8
  | .elemSec => 9
  | .codeSec => 10
  | .dataSec => 11

/-- Modelled from the spec: `ModuleBuilder::get_next_section_type` (not under
`src/`); §4.C lists the states as section ids 1..11 in order plus a terminal
state.  `custom` is never a state of the machine, so its successor is
irrelevant; we map it to `none`. -/
def getNextSectionType : SectionType → Option SectionType
  | .custom => none
  | .typeSec => some .importSec
  | .importSec => some .funcSec
  | .funcSec => some .tableSec
  | .tableSec => some .memSec
  | .memSec => some .globalSec
  | .globalSec => some .exportSec
  | .exportSec => some .startSec
  | .startSec => some .elemSec
  | .elemSec => some .codeSec
  | .codeSec => some .dataSec
  | .dataSec => none

/-- Fueled version of the `while let Some(expected_section_type)` walk in
`RawModule::read` (module.rs lines 71-86): starting from the expected
section `e`, advance through `getNextSectionType` until the incoming id `s`
is reached, returning `none` when the chain is exhausted.  The chain has at
most 11 steps, so fuel 12 makes the fueled function total and equal to the
source loop. -/
def advanceFromFuel : Nat → SectionType → SectionType → Option SectionType
  | 0, _, _ => none
  | fuel + 1, e, s =>
    if e = s then some e
    else
      match getNextSectionType e with
      | none => none
      | some e2 => advanceFromFuel fuel e2 s

/-- The section-order walk of `RawModule::read` with sufficient fuel. -/
def advanceFrom (e s : SectionType) : Option SectionType :=
  advanceFromFuel 12 e s

/-- One framed section of the input stream, with its payload abstracted:
which kind it is, whether reading the custom-section name fails (an abstract
error code), whether `ModuleBuilder::process_section` fails, and whether the
scoped reader is exhausted after processing.  Payload decoding is not under
`src/`, so these outcomes are inputs of the model. -/
structure RawSection where
  stype : SectionType
  nameErr : Option Nat
  processErr : Option Nat
  exhausted : Bool
  deriving DecidableEq, Repr

/-- A well-formed section: name decodes, payload processes, scoped reader
ends up exhausted. -/
def goodSection (s : SectionType) : RawSection :=
  { stype := s, nameErr := none, processErr := none, exhausted := true }

/-- Errors of `RawModule::read`, one constructor per distinct `anyhow!` call
site: `invalidHeader` is "Invalid module header", `shortHeader` a failed
`read_exact` of the 8 header bytes, `invalidOrder` is "Invalid section
order", `wholeSection` is "Failed to read whole section"; `customName`,
`sectionPayload` and `buildErr` carry abstract error codes of the modelled
sub-components. -/
inductive ReadErr where
  | invalidHeader
  | shortHeader
  | invalidOrder
  | wholeSection
  | customName (n : Nat)
  | sectionPayload (n : Nat)
  | buildErr (n : Nat)
  deriving DecidableEq, Repr

/-- Outcome of running code that can also hit an `assert!(false, msg)`:
either a value, an error return, or a debug-assertion panic. -/
inductive Outcome (ε α : Type) where
  | ok (a : α)
  | fail (e : ε)
  | panicked (msg : String)
  deriving DecidableEq, Repr

/-- The section loop of `RawModule::read` (module.rs lines 56-102) over a
framed section stream.  `dbg` is `cfg!(debug_assertions)`: when true, the
`assert!(false, ...)` statements at lines 89 and 95 fire before the error
returns.  Custom sections are skipped (after their name is read); a
non-custom section advances the expected id via `advanceFrom` and is then
processed; after processing, the scoped reader must be exhausted.  The
result is the list of section kinds handed to
`ModuleBuilder::process_section`, in order. -/
def readLoop (dbg : Bool) (cur : SectionType) : List RawSection → Outcome ReadErr (List SectionType)
  | [] => .ok []
  | sec :: rest =>
    if sec.stype = .custom then
      match sec.nameErr with
      | some n => .fail (.customName n)
      | none => readLoop dbg cur rest
    else
      match advanceFrom cur sec.stype with
      | none =>
        if dbg then .panicked "Sections are in unexpected order"
        else .fail .invalidOrder
      | some cur2 =>
        match sec.processErr with
        | some n => .fail (.sectionPayload n)
        | none =>
          if sec.exhausted then
            match readLoop dbg cur2 rest with
            | .ok tr => .ok (sec.stype :: tr)
            | .fail e => .fail e
            | .panicked msg => .panicked msg
          else if dbg then .panicked "Failed to read whole section"
          else .fail .wholeSection

/-- The 8 magic header bytes `00 61 73 6D 01 00 00 00`. -/
def magicHeader : List Nat := [0x00, 0x61, 0x73, 0x6d, 0x01, 0x00, 0x00, 0x00]

/-- An input byte stream, framed: the raw header bytes plus the framed
section stream that follows them (section framing itself — id byte and LEB
length — is part of the modelled reader, not of `src/`). -/
structure ModuleInput where
  header : List Nat
  sections : List RawSection
  deriving DecidableEq, Repr

/-- `RawModule::read` (module.rs lines 40-106) over a framed input:
read and check the 8-byte header against `magicHeader`, then run the
section loop starting with expected section `typeSec`, and finally hand the
processed-section trace to `ModuleBuilder::make_module` — modelled here by
the abstract parameter `mk`, since the module builder is not under `src/`. -/
def rawModuleRead (dbg : Bool) (mk : List SectionType → Except Nat Unit)
    (input : ModuleInput) : Outcome ReadErr (List SectionType) :=
  if input.header.length < 8 then .fail .shortHeader
  else if input.header.take 8 = magicHeader then
    match readLoop dbg .typeSec input.sections with
    | .ok trace =>
      match mk trace with
      | .ok _ => .ok trace
      | .error n => .fail (.buildErr n)
    | .fail e => .fail e
    | .panicked msg => .panicked msg
  else .fail .invalidHeader

/-! ## Value model of the runtime store -/

/-- Wasm numeric value kinds (spec §3: {i32, i64, f32, f64}). -/
inductive ValueKind where
  | i32
  | i64
  | f32
  | f64
  deriving DecidableEq, Repr

/-- Modelled from the spec: `core::stack_entry::StackEntry` (not under
`src/`).  One runtime value; payloads are the raw bit patterns, kept as
naturals (an i32 is "coerced to an unsigned size" per §4.D, so the i32
payload is the unsigned 32-bit value). -/
inductive StackEntry where
  | i32 (n : Nat)
  | i64 (n : Nat)
  | f32 (bits : Nat)
  | f64 (bits : Nat)
  deriving DecidableEq, Repr

/-- Value kind of a stack entry. -/
def StackEntry.kind : StackEntry → ValueKind
  | .i32 _ => .i32
  | .i64 _ => .i64
  | .f32 _ => .f32
  | .f64 _ => .f64

/-- A function signature (spec §3: pair of ordered lists of value kinds). -/
structure FuncType where
  params : List ValueKind
  results : List ValueKind
  deriving DecidableEq, Repr

/-- A global's declared type: value kind plus mutability flag. -/
structure GlobalType where
  kind : ValueKind
  mutable : Bool
  deriving DecidableEq, Repr

/-- Modelled from the spec: `core::Global` (not under `src/`), §4.H — a
declared type together with its current value. -/
structure Global where
  gtype : GlobalType
  value : StackEntry
  deriving DecidableEq, Repr

/-- Modelled from the spec: `Global::new` (not under `src/`), §4.H —
type-check the initial value against the declared kind; fail otherwise. -/
def Global.new (gt : GlobalType) (v : StackEntry) : Except String Global :=
  if v.kind = gt.kind then .ok { gtype := gt, value := v }
  else .error "Global type mismatch"

/-- Modelled from the spec: the instructions a constant expression may
contain (§4.D): numeric constants, `global.get`, and the terminating `end`
(left implicit — an expression is the list of instructions before `end`).
`illegal` stands for any other opcode, which must fail. -/
inductive ConstInstr where
  | i32Const (n : Nat)
  | i64Const (n : Nat)
  | f32Const (bits : Nat)
  | f64Const (bits : Nat)
  | globalGet (i : Nat)
  | illegal (op : Nat)
  deriving DecidableEq, Repr

/-- Modelled from the spec: the instruction loop of
`evaluate_constant_expression` (not under `src/`), §4.D.  The store view it
receives is `ConstantExpressionStore`, which for `Module` exposes exactly
`global_idx` (module.rs lines 443-453): a bounds check on the `globals`
sequence and nothing else, so `global.get i` reads the i-th global of that
sequence whenever `i` is in range. -/
def evalConstInstrs (gs : List Global) : List ConstInstr → List StackEntry → Except String (List StackEntry)
  | [], st => .ok st
  | .i32Const n :: rest, st => evalConstInstrs gs rest (.i32 n :: st)
  | .i64Const n :: rest, st => evalConstInstrs gs rest (.i64 n :: st)
  | .f32Const b :: rest, st => evalConstInstrs gs rest (.f32 b :: st)
  | .f64Const b :: rest, st => evalConstInstrs gs rest (.f64 b :: st)
  | .globalGet i :: rest, st =>
    if h : i < gs.length then evalConstInstrs gs rest ((gs.get ⟨i, h⟩).value :: st)
    else .error "Global index out of range"
  | .illegal _ :: _, _ => .error "Invalid instruction in constant expression"

/-- Modelled from the spec: `evaluate_constant_expression` (not under
`src/`), §4.D — run the instructions over the store view and require the
expected result count. -/
def evaluateConstantExpression (e : List ConstInstr) (gs : List Global) (count : Nat) : Except String (List StackEntry) :=
  match evalConstInstrs gs e [] with
  | .error err => .error err
  | .ok st =>
    if st.length = count then .ok st
    else .error "Constant expression produced wrong number of results"

/-- A table type: element kind funcref, min size, optional max (spec §3). -/
structure TableType where
  min : Nat
  max : Option Nat
  deriving DecidableEq, Repr

/-- A memory type: min and optional max page counts (spec §3). -/
structure MemType where
  minPages : Nat
  maxPages : Option Nat
  deriving DecidableEq, Repr

/-- A locally defined function body (`core::Func`, not under `src/`):
local declarations plus instruction bytes, both opaque to this core. -/
structure Func where
  localDecls : List ValueKind
  body : List Nat
  deriving DecidableEq, Repr

/-- Modelled from the spec: `core::Callable` (not under `src/`), §4.H — a
sum of host functions and Wasm-body functions.  A host callable is
identified by an abstract id chosen by the resolver. -/
inductive Callable where
  | host (id : Nat)
  | wasm (ftype : FuncType) (f : Func)
  deriving DecidableEq, Repr

/-- Modelled from the spec: `core::Table` (not under `src/`), §4.H — a
table type plus entries, each a null or a function reference. -/
structure Table where
  ttype : TableType
  entries : List (Option Callable)
  deriving DecidableEq, Repr

/-- Modelled from the spec: `Table::new` (not under `src/`), §4.E step 3 —
min entries, all null. -/
def Table.new (t : TableType) : Table :=
  { ttype := t, entries := List.replicate t.min none }

/-- Overwrite `xs` with `ys` starting at `off`, padding with `pad` when the
write reaches past the end of `xs`. -/
def splice {α : Type} (xs : List α) (off : Nat) (ys : List α) (pad : α) : List α :=
  let padded := xs ++ List.replicate (off + ys.length - xs.length) pad
  padded.take off ++ ys ++ padded.drop (off + ys.length)

/-- Modelled from the spec: `Table::set_entries` (not under `src/`), §4.H
and the §9 note that the source allows writes beyond the current table
size — write the references at `[off, off+len)`, extending if needed. -/
def Table.setEntries (t : Table) (off : Nat) (fs : List Callable) : Table :=
  { ttype := t.ttype, entries := splice t.entries off (fs.map some) none }

/-- Modelled from the spec: `core::Memory` (not under `src/`), §4.H — a
memory type plus byte contents. -/
structure Memory where
  mtype : MemType
  data : List Nat
  deriving DecidableEq, Repr

/-- Modelled from the spec: `Memory::new` (not under `src/`), §4.E step 4 —
`min * 65536` bytes, zero-initialized. -/
def Memory.new (mt : MemType) : Memory :=
  { mtype := mt, data := List.replicate (mt.minPages * 65536) 0 }

/-- Modelled from the spec: `Memory::set_data` (not under `src/`), §4.H —
copy the bytes at `[off, off+len)`, failing on overflow. -/
def Memory.setData (m : Memory) (off : Nat) (bs : List Nat) : Except String Memory :=
  if off + bs.length ≤ m.data.length then
    .ok { mtype := m.mtype, data := m.data.take off ++ bs ++ m.data.drop (off + bs.length) }
  else .error "Memory write out of range"

/-! ## Static description (`RawModule`) and runtime store (`Module`) -/

/-- An import descriptor (`core::ImportDesc`): one of the four kinds. -/
inductive ImportDesc where
  | typeIdx (t : Nat)
  | tableType (t : TableType)
  | memType (t : MemType)
  | globalType (t : GlobalType)
  deriving DecidableEq, Repr

/-- One import declaration (`core::Import`). -/
structure Import where
  modName : String
  name : String
  desc : ImportDesc
  deriving DecidableEq, Repr

/-- An export descriptor (`core::ExportDesc`): an index per kind. -/
inductive ExportDesc where
  | func (i : Nat)
  | table (i : Nat)
  | mem (i : Nat)
  | global (i : Nat)
  deriving DecidableEq, Repr

/-- One export declaration (`core::Export { nm, d }`). -/
structure Export where
  nm : String
  d : ExportDesc
  deriving DecidableEq, Repr

/-- One global definition (`core::GlobalDef`): declared type plus constant
init expression. -/
structure GlobalDef where
  gtype : GlobalType
  init : List ConstInstr
  deriving DecidableEq, Repr

/-- One element segment (`core::Element`): target table index, offset
expression, function indices. -/
structure Element where
  tableIdx : Nat
  expr : List ConstInstr
  funcIdx : List Nat
  deriving DecidableEq, Repr

/-- One data segment (`core::Data`): target memory index, offset
expression, raw bytes. -/
structure Data where
  memIdx : Nat
  expr : List ConstInstr
  bytes : List Nat
  deriving DecidableEq, Repr

/-- `core::RawModule` (module.rs lines 24-37), with `metadata.types`
flattened into the `types` field. -/
structure RawModule where
  types : List FuncType
  typeidx : List Nat
  funcs : List Func
  tables : List TableType
  mems : List MemType
  globals : List GlobalDef
  elem : List Element
  data : List Data
  start : Option Nat
  imports : List Import
  exports : List Export
  deriving DecidableEq, Repr

/-- `core::ExportValue` (module.rs lines 139-145).  The Rust variants hold
shared handles (`Rc<RefCell<_>>`); the pure model stores the values. -/
inductive ExportValue where
  | function (c : Callable)
  | table (t : Table)
  | memory (m : Memory)
  | global (g : Global)
  deriving DecidableEq, Repr

/-- `core::Module` (module.rs lines 147-155): the runtime store.  The
export map is modelled as an association list with last-wins insertion
(`HashMap::insert`). -/
structure Module where
  functions : List Callable
  tables : List Table
  memories : List Memory
  globals : List Global
  exports : List (String × ExportValue)
  funcTypes : List FuncType
  deriving DecidableEq, Repr

/-- `Module::new` (module.rs lines 158-167): all sequences empty. -/
def Module.empty : Module :=
  { functions := [], tables := [], memories := [], globals := [],
    exports := [], funcTypes := [] }

/-- Modelled from the spec: the host resolver contract (§4.G, not under
`src/`): four total operations, each returning a handle or an error. -/
structure Resolver where
  resolveFunction : String → String → FuncType → Except String Callable
  resolveTable : String → String → TableType → Except String Table
  resolveMemory : String → String → MemType → Except String Memory
  resolveGlobal : String → String → GlobalType → Except String Global

/-! ## Instantiation pipeline (`Module::resolve_raw_module`) -/

/-- `Module::resolve_imports` (module.rs lines 179-222): for each import in
declaration order, call the matching resolver operation and append the
handle to the per-kind sequence.  A function import's type index is checked
against `types` first.  The second component counts the resolver operations
invoked (a call that returns an error is still a call). -/
def resolveImports (m : Module) (types : List FuncType) (r : Resolver) : List Import → (Except String Module) × Nat
  | [] => (.ok m, 0)
  | imp :: rest =>
    match imp.desc with
    | .typeIdx t =>
      if h : t < types.length then
        match r.resolveFunction imp.modName imp.name (types.get ⟨t, h⟩) with
        | .error e => (.error e, 1)
        | .ok c =>
          match resolveImports { m with functions := m.functions ++ [c] } types r rest with
          | (res, n) => (res, n + 1)
      else
        (.error ("Function import " ++ imp.modName ++ " from module " ++ imp.name ++ " has invalid type index"), 0)
    | .tableType tt =>
      match r.resolveTable imp.modName imp.name tt with
      | .error e => (.error e, 1)
      | .ok tb =>
        match resolveImports { m with tables := m.tables ++ [tb] } types r rest with
        | (res, n) => (res, n + 1)
    | .memType mt =>
      match r.resolveMemory imp.modName imp.name mt with
      | .error e => (.error e, 1)
      | .ok mem =>
        match resolveImports { m with memories := m.memories ++ [mem] } types r rest with
        | (res, n) => (res, n + 1)
    | .globalType gt =>
      match r.resolveGlobal imp.modName imp.name gt with
      | .error e => (.error e, 1)
      | .ok g =>
        match resolveImports { m with globals := m.globals ++ [g] } types r rest with
        | (res, n) => (res, n + 1)

/-- `Module::add_functions` (module.rs lines 224-241): zip of `typeidx` and
`funcs`; each local function becomes a Wasm callable over
`(types[typeidx], body)`; an out-of-range type index fails. -/
def addFunctions (m : Module) (types : List FuncType) : List (Nat × Func) → Except String Module
  | [] => .ok m
  | (t, f) :: rest =>
    if h : t < types.length then
      addFunctions { m with functions := m.functions ++ [Callable.wasm (types.get ⟨t, h⟩) f] } types rest
    else .error "Function has invalid type index"

/-- `Module::add_tables` (module.rs lines 243-249): append a fresh table
per declared table type (the source loop never fails). -/
def addTables (m : Module) (ts : List TableType) : Module :=
  { m with tables := m.tables ++ ts.map Table.new }

/-- `Module::add_memories` (module.rs lines 251-258): append a fresh
zeroed memory per declared memory type (the source loop never fails). -/
def addMemories (m : Module) (ms : List MemType) : Module :=
  { m with memories := m.memories ++ ms.map Memory.new }

/-- One iteration of the `Module::add_globals` loop (module.rs lines
260-272): evaluate the init expression against the globals visible so far,
then construct the global with its declared type. -/
def evalOneGlobal (base : List Global) (g : GlobalDef) : Except String Global :=
  match evaluateConstantExpression g.init base 1 with
  | .error e => .error e
  | .ok [v] => Global.new g.gtype v
  | .ok _ => .error "Constant expression produced wrong number of results"

/-- The `Module::add_globals` loop, with the store-so-far made explicit:
each global is evaluated against `base` extended by the globals created
before it, exactly as the source pushes each result before the next
iteration. -/
def evalLocalGlobals (base : List Global) : List GlobalDef → Except String (List Global)
  | [] => .ok []
  | g :: rest =>
    match evalOneGlobal base g with
    | .error e => .error e
    | .ok gl =>
      match evalLocalGlobals (base ++ [gl]) rest with
      | .error e => .error e
      | .ok ls => .ok (gl :: ls)

/-- `Module::add_globals` (module.rs lines 260-272): run the loop over the
module's own globals sequence (the `ConstantExpressionStore` view of
`self`) and append the results. -/
def addGlobals (m : Module) (gs : List GlobalDef) : Except String Module :=
  match evalLocalGlobals m.globals gs with
  | .error e => .error e
  | .ok ls => .ok { m with globals := m.globals ++ ls }

/-- `HashMap::insert` over the association-list export map: replace the
value under an existing key, otherwise append. -/
def insertExport (xs : List (String × ExportValue)) (k : String) (v : ExportValue) : List (String × ExportValue) :=
  if xs.any (fun p => p.1 = k) then
    xs.map (fun p => if p.1 = k then (k, v) else p)
  else xs ++ [(k, v)]

/-- `Module::collect_exports` with `collect_single_export` inlined
(module.rs lines 274-316): resolve each export index against the matching
per-kind sequence and insert it into the export map; an out-of-range index
fails with "Export has invalid index". -/
def collectExports (m : Module) : List Export → Except String Module
  | [] => .ok m
  | ex :: rest =>
    match ex.d with
    | .func idx =>
      if h : idx < m.functions.length then
        collectExports { m with exports := insertExport m.exports ex.nm (.function (m.functions.get ⟨idx, h⟩)) } rest
      else .error "Export has invalid index"
    | .table idx =>
      if h : idx < m.tables.length then
        collectExports { m with exports := insertExport m.exports ex.nm (.table (m.tables.get ⟨idx, h⟩)) } rest
      else .error "Export has invalid index"
    | .mem idx =>
      if h : idx < m.memories.length then
        collectExports { m with exports := insertExport m.exports ex.nm (.memory (m.memories.get ⟨idx, h⟩)) } rest
      else .error "Export has invalid index"
    | .global idx =>
      if h : idx < m.globals.length then
        collectExports { m with exports := insertExport m.exports ex.nm (.global (m.globals.get ⟨idx, h⟩)) } rest
      else .error "Export has invalid index"

/-- `Module::add_func_types` (module.rs lines 318-321): move the `types`
vector into the store (the source always returns Ok). -/
def addFuncTypes (m : Module) (ts : List FuncType) : Module :=
  { m with funcTypes := ts }

/-- `Module::pre_execute_validate` (module.rs lines 323-331): at most one
table and at most one memory; the error strings are the source's,
including its "Too many memoryies" spelling. -/
def preExecuteValidate (m : Module) : Except String Unit :=
  if m.tables.length > 1 then .error "Too many tables"
  else if m.memories.length > 1 then .error "Too many memoryies"
  else .ok ()

/-- `Module::evaluate_offset_expression` (module.rs lines 393-400):
evaluate the expression for one result; an i32 becomes the (unsigned)
offset, anything else is "Type mismatch in offset expression". -/
def evaluateOffsetExpression (m : Module) (e : List ConstInstr) : Except String Nat :=
  match evaluateConstantExpression e m.globals 1 with
  | .error err => .error err
  | .ok [StackEntry.i32 c] => .ok c
  | .ok _ => .error "Type mismatch in offset expression"

/-- The index-resolution pass of `Module::initialize_table_element`
(module.rs lines 340-351): look every function index up before anything is
written; the first out-of-range index fails the whole collection. -/
def lookupFunctions (fns : List Callable) : List Nat → Except String (List Callable)
  | [] => .ok []
  | i :: rest =>
    if h : i < fns.length then
      match lookupFunctions fns rest with
      | .error e => .error e
      | .ok cs => .ok (fns.get ⟨i, h⟩ :: cs)
    else .error "Function index out of range"

/-- `Module::initialize_table_element` (module.rs lines 333-357): check the
table index, evaluate the offset, resolve all function indices, and only
then call `set_entries`.  The boolean records whether `set_entries` was
invoked, i.e. whether any table was written. -/
def initializeTableElement (m : Module) (el : Element) : (Except String Module) × Bool :=
  if h : el.tableIdx < m.tables.length then
    match evaluateOffsetExpression m el.expr with
    | .error e => (.error e, false)
    | .ok off =>
      match lookupFunctions m.functions el.funcIdx with
      | .error e => (.error e, false)
      | .ok fs =>
        (.ok { m with tables := m.tables.set el.tableIdx (Table.setEntries (m.tables.get ⟨el.tableIdx, h⟩) off fs) }, true)
  else (.error "Table initializer table idx out of range", false)

/-- `Module::initialize_table_elements` (module.rs lines 359-368). -/
def initializeTableElements (m : Module) : List Element → Except String Module
  | [] => .ok m
  | el :: rest =>
    match (initializeTableElement m el).1 with
    | .error e => .error e
    | .ok m2 => initializeTableElements m2 rest

/-- `Module::initialize_memory_data` (module.rs lines 370-383): check the
memory index, evaluate the offset, copy the bytes. -/
def initializeMemoryData (m : Module) (d : Data) : Except String Module :=
  if h : d.memIdx < m.memories.length then
    match evaluateOffsetExpression m d.expr with
    | .error e => .error e
    | .ok off =>
      match Memory.setData (m.memories.get ⟨d.memIdx, h⟩) off d.bytes with
      | .error e => .error e
      | .ok mem2 => .ok { m with memories := m.memories.set d.memIdx mem2 }
  else .error "Memory initializer mem idx out of range"

/-- `Module::initialize_memory` (module.rs lines 385-391). -/
def initializeMemory (m : Module) : List Data → Except String Module
  | [] => .ok m
  | d :: rest =>
    match initializeMemoryData m d with
    | .error e => .error e
    | .ok m2 => initializeMemory m2 rest

/-- Steps 1-5 of `Module::resolve_raw_module` (module.rs lines 406-414):
resolve imports, add local functions, tables, memories, globals.  The
second component counts resolver calls. -/
def buildStore (raw : RawModule) (r : Resolver) : (Except String Module) × Nat :=
  match resolveImports Module.empty raw.types r raw.imports with
  | (.error e, n) => (.error e, n)
  | (.ok m1, n) =>
    match addFunctions m1 raw.types (raw.typeidx.zip raw.funcs) with
    | .error e => (.error e, n)
    | .ok m2 =>
      match addGlobals (addMemories (addTables m2 raw.tables) raw.mems) raw.globals with
      | .error e => (.error e, n)
      | .ok m5 => (.ok m5, n)

/-- `Module::resolve_raw_module` up to and including element and data
initialization (module.rs lines 406-425): everything before the start
function runs. -/
def preStart (raw : RawModule) (r : Resolver) : (Except String Module) × Nat :=
  match buildStore raw r with
  | (.error e, n) => (.error e, n)
  | (.ok m5, n) =>
    match collectExports m5 raw.exports with
    | .error e => (.error e, n)
    | .ok m6 =>
      match preExecuteValidate (addFuncTypes m6 raw.types) with
      | .error e => (.error e, n)
      | .ok _ =>
        match initializeTableElements (addFuncTypes m6 raw.types) raw.elem with
        | .error e => (.error e, n)
        | .ok m8 =>
          match initializeMemory m8 raw.data with
          | .error e => (.error e, n)
          | .ok m9 => (.ok m9, n)

/-- `Module::resolve_raw_module` (module.rs lines 402-440).  The external
interpreter behind `Callable::call` is abstracted by `cf` (the spec's §6
interpreter interface; a call either returns or traps with an error); the
call receives a fresh stack and, in this model, does not alter the store's
sequences.  The result carries the number of resolver calls and the number
of start-function invocations. -/
def resolveRawModule (raw : RawModule) (r : Resolver) (cf : Callable → Except String Unit) : (Except String Module) × Nat × Nat :=
  match preStart raw r with
  | (.error e, n) => (.error e, n, 0)
  | (.ok m, n) =>
    match raw.start with
    | none => (.ok m, n, 0)
    | some s =>
      if hs : s < m.functions.length then
        match cf (m.functions.get ⟨s, hs⟩) with
        | .error e => (.error e, n, 1)
        | .ok _ => (.ok m, n, 1)
      else (.error "Start function not found", n, 0)

/-- Errors of `Module::load_module_from_path`: decoding errors
(`RawModule::read`) or instantiation errors (`resolve_raw_module`). -/
inductive LoadErr where
  | decodeErr (e : ReadErr)
  | instErr (s : String)
  deriving DecidableEq, Repr

/-- `Module::load_module_from_path` (module.rs lines 169-177) over a framed
input: run `RawModule::read`; only if it succeeds, build the raw module
(abstracted by `mkRaw` over the processed-section trace, standing for
`ModuleBuilder::make_module`) and instantiate it.  The two counters are the
resolver calls and start invocations of the instantiation. -/
def loadModule (dbg : Bool) (mkRaw : List SectionType → Except Nat RawModule)
    (input : ModuleInput) (r : Resolver) (cf : Callable → Except String Unit) :
    (Outcome LoadErr Module) × Nat × Nat :=
  match rawModuleRead dbg (fun tr => (mkRaw tr).map (fun _ => ())) input with
  | .fail e => (.fail (.decodeErr e), 0, 0)
  | .panicked msg => (.panicked msg, 0, 0)
  | .ok trace =>
    match mkRaw trace with
    | .error n => (.fail (.decodeErr (.buildErr n)), 0, 0)
    | .ok raw =>
      match resolveRawModule raw r cf with
      | (.error e, n, k) => (.fail (.instErr e), n, k)
      | (.ok m, n, k) => (.ok m, n, k)

/-! ## Lemmas about the section-order machine -/

/-- Between two non-custom section kinds, the source's while-loop walk is
exactly an order comparison on section ids: it reaches `s` from `e` iff
`e`'s id does not exceed `s`'s. -/
theorem advanceFrom_eq : ∀ e s : SectionType, e ≠ .custom → s ≠ .custom →
    advanceFrom e s = if sectionNat e ≤ sectionNat s then some s else none := by
  decide

/-- The ids of the non-custom sections of a framed stream, in order. -/
def nonCustomNats : List RawSection → List Nat
  | [] => []
  | sec :: rest =>
    if sec.stype = .custom then nonCustomNats rest
    else sectionNat sec.stype :: nonCustomNats rest

/-- The kinds of the non-custom sections of a framed stream, in order:
the trace of sections handed to the module builder on success. -/
def traceOf : List RawSection → List SectionType
  | [] => []
  | sec :: rest =>
    if sec.stype = .custom then traceOf rest
    else sec.stype :: traceOf rest

/-- Every section of the stream is individually well-formed: its name
decodes, its payload processes, and its scoped reader ends exhausted. -/
def GoodSections (ss : List RawSection) : Prop :=
  ∀ sec ∈ ss, sec.nameErr = none ∧ sec.processErr = none ∧ sec.exhausted = true

/-- A list of naturals is bounded below by `k` and non-decreasing. -/
def chainGE : Nat → List Nat → Bool
  | _, [] => true
  | k, n :: rest => decide (k ≤ n) && chainGE n rest

/-- Characterization of the section loop in release mode on well-formed
sections: it succeeds (with the non-custom trace) exactly when the
non-custom section ids are non-decreasing starting from the expected id,
and otherwise fails with the invalid-order error. -/
theorem readLoop_characterization : ∀ (ss : List RawSection) (cur : SectionType),
    cur ≠ .custom → GoodSections ss →
    readLoop false cur ss =
      (if chainGE (sectionNat cur) (nonCustomNats ss) then .ok (traceOf ss)
       else .fail .invalidOrder) := by
  intro ss
  induction ss with
  | nil => intro cur _ _; simp [readLoop, nonCustomNats, chainGE, traceOf]
  | cons sec rest ih =>
    intro cur hcur hgood
    have hsec := hgood sec (by simp)
    have hrest : GoodSections rest := fun s hs => hgood s (by simp [hs])
    by_cases hc : sec.stype = .custom
    · simp only [readLoop, hc, if_pos rfl, hsec.1, nonCustomNats, traceOf]
      exact ih cur hcur hrest
    · simp only [readLoop, if_neg hc]
      rw [advanceFrom_eq cur sec.stype hcur hc]
      by_cases hle : sectionNat cur ≤ sectionNat sec.stype
      · simp only [if_pos hle, hsec.2.1, hsec.2.2, if_pos rfl]
        rw [ih sec.stype hc hrest]
        simp only [nonCustomNats, traceOf, if_neg hc, chainGE, decide_eq_true hle,
          Bool.true_and]
        by_cases hch : chainGE (sectionNat sec.stype) (nonCustomNats rest)
        · simp [hch]
        · simp [hch]
      · simp only [if_neg hle]
        have : chainGE (sectionNat cur) (nonCustomNats (sec :: rest)) = false := by
          simp [nonCustomNats, if_neg hc, chainGE, hle]
        simp [this]

/-- In debug builds the section loop can fail, but never with the
invalid-order or unconsumed-section errors: on those two branches the
`assert!(false, ...)` fires first and the run panics instead. -/
theorem readLoop_debug_fail : ∀ (ss : List RawSection) (cur : SectionType) (e : ReadErr),
    readLoop true cur ss = .fail e → e ≠ .invalidOrder ∧ e ≠ .wholeSection := by
  intro ss
  induction ss with
  | nil => intro cur e h; simp [readLoop] at h
  | cons sec rest ih =>
    intro cur e h
    simp only [readLoop] at h
    by_cases hc : sec.stype = .custom
    · rw [if_pos hc] at h
      cases hn : sec.nameErr with
      | some n =>
        rw [hn] at h
        injection h with h2
        subst h2
        exact ⟨by simp, by simp⟩
      | none => rw [hn] at h; exact ih cur e h
    · rw [if_neg hc] at h
      cases hadv : advanceFrom cur sec.stype with
      | none => rw [hadv] at h; simp at h
      | some cur2 =>
        rw [hadv] at h
        cases hp : sec.processErr with
        | some n =>
          rw [hp] at h
          injection h with h2
          subst h2
          exact ⟨by simp, by simp⟩
        | none =>
          rw [hp] at h
          cases hex : sec.exhausted with
          | true =>
            rw [hex] at h
            simp only [if_true] at h
            cases hr : readLoop true cur2 rest with
            | ok tr => rw [hr] at h; simp at h
            | fail e2 =>
              rw [hr] at h
              injection h with h2
              subst h2
              exact ih cur2 e2 hr
            | panicked msg => rw [hr] at h; simp at h
          | false => rw [hex] at h; simp at h

/-- A host that resolves nothing: every import fails. -/
def failResolver : Resolver :=
  { resolveFunction := fun _ _ _ => .error "import not found"
    resolveTable := fun _ _ _ => .error "import not found"
    resolveMemory := fun _ _ _ => .error "import not found"
    resolveGlobal := fun _ _ _ => .error "import not found" }

/-- An interpreter stand-in whose calls always return normally. -/
def okCall : Callable → Except String Unit := fun _ => .ok ()

/-- Claim C3: for every framed input whose first 8 bytes differ from the
magic header `00 61 73 6D 01 00 00 00`, loading fails with the
"Invalid module header" error (`ReadErr.invalidHeader`), no resolver
operation is called, and no start function is invoked. -/
theorem c3_header_gate : ∀ (dbg : Bool) (mkRaw : List SectionType → Except Nat RawModule)
    (input : ModuleInput) (r : Resolver) (cf : Callable → Except String Unit),
    8 ≤ input.header.length → input.header.take 8 ≠ magicHeader →
    loadModule dbg mkRaw input r cf = (.fail (.decodeErr .invalidHeader), 0, 0) := by
  intro dbg mkRaw input r cf h8 hne
  have hlt : ¬ (input.header.length < 8) := by omega
  simp [loadModule, rawModuleRead, if_neg hlt, if_neg hne]

/-- Witness for C3 at a concrete all-zero header. -/
theorem c3_header_gate_witness :
    loadModule false (fun _ => .error 0)
      { header := [0, 0, 0, 0, 0, 0, 0, 0], sections := [] } failResolver okCall
      = (.fail (.decodeErr .invalidHeader), 0, 0) :=
  c3_header_gate false (fun _ => .error 0)
    { header := [0, 0, 0, 0, 0, 0, 0, 0], sections := [] } failResolver okCall
    (by decide) (by decide)

/-- The spec's notion of subsequence over lists of section ids: the claim
compares section order against "a subsequence of the canonical order
(section ids 1..11 ascending)". -/
def isSubseqNat : List Nat → List Nat → Bool
  | [], _ => true
  | _ :: _, [] => false
  | a :: as2, b :: bs => if a = b then isSubseqNat as2 bs else isSubseqNat (a :: as2) bs

/-- The canonical non-custom section order, ids 1..11 ascending. -/
def canonicalOrder : List Nat := [1, 2, 3, 4, 5, 6, 7, 8, 9, 10, 11]

/-- Counterexample for claim C4: a stream whose non-custom section ids
`[1, 1]` (two type sections) are not a subsequence of the canonical order
1..11, yet `RawModule::read` accepts it instead of failing with the
invalid-order error. -/
theorem c4_counterexample :
    isSubseqNat (nonCustomNats [goodSection .typeSec, goodSection .typeSec]) canonicalOrder = false
    ∧ rawModuleRead false (fun _ => .ok ())
        { header := magicHeader, sections := [goodSection .typeSec, goodSection .typeSec] }
        = .ok [.typeSec, .typeSec] := by
  exact ⟨by decide, by decide⟩

/-- Claim C4 (amended): with a valid header and individually well-formed
sections, `RawModule::read` fails with the "Invalid section order" error
exactly when the sequence of non-custom section ids is not non-decreasing
(starting from the type section's id 1); consecutive repeats of a section
id are therefore accepted, custom sections are transparent, and missing
sections are permitted. -/
theorem c4_section_order : ∀ (mk : List SectionType → Except Nat Unit) (input : ModuleInput),
    8 ≤ input.header.length → input.header.take 8 = magicHeader →
    GoodSections input.sections →
    (rawModuleRead false mk input = .fail .invalidOrder
      ↔ chainGE (sectionNat .typeSec) (nonCustomNats input.sections) = false) := by
  intro mk input h8 hmagic hgood
  have hlt : ¬ (input.header.length < 8) := by omega
  simp only [rawModuleRead, if_neg hlt, if_pos hmagic]
  rw [readLoop_characterization input.sections .typeSec (by decide) hgood]
  by_cases hch : chainGE (sectionNat SectionType.typeSec) (nonCustomNats input.sections) = true
  · rw [if_pos hch]
    cases hmk : mk (traceOf input.sections) <;> simp [hmk, hch]
  · rw [if_neg hch]
    simp only [Bool.not_eq_true] at hch
    simp [hch]

/-- Witness for the amended C4 at a concrete out-of-order stream (a memory
section followed by an import section). -/
theorem c4_section_order_witness :
    rawModuleRead false (fun _ => .ok ())
      { header := magicHeader, sections := [goodSection .memSec, goodSection .importSec] }
      = .fail .invalidOrder :=
  (c4_section_order (fun _ => .ok ())
    { header := magicHeader, sections := [goodSection .memSec, goodSection .importSec] }
    (by decide) (by decide) (by simp [GoodSections, goodSection])).mpr (by decide)

/-- Claim C8: on the two malformed branches of `RawModule::read` — sections
out of canonical order, and a section whose scoped reader is not exhausted —
the `assert!(false, ...)` runs before the error return, so with debug
assertions enabled the loop panics on such inputs and the invalid-order and
unconsumed-section error returns are unreachable. -/
theorem c8_debug_asserts :
    (∀ (cur : SectionType) (ss : List RawSection) (e : ReadErr),
        readLoop true cur ss = .fail e → e ≠ .invalidOrder ∧ e ≠ .wholeSection)
    ∧ readLoop true .typeSec [goodSection .memSec, goodSection .importSec]
        = .panicked "Sections are in unexpected order"
    ∧ readLoop true .typeSec [{ stype := .typeSec, nameErr := none, processErr := none, exhausted := false }]
        = .panicked "Failed to read whole section" :=
  ⟨fun cur ss e h => readLoop_debug_fail ss cur e h, by decide, by decide⟩

/-- Witness for C8: a debug-mode run that fails (with a payload error)
indeed carries neither of the two asserted-over error values. -/
theorem c8_debug_asserts_witness :
    ReadErr.sectionPayload 7 ≠ ReadErr.invalidOrder
    ∧ ReadErr.sectionPayload 7 ≠ ReadErr.wholeSection :=
  c8_debug_asserts.1 .typeSec
    [{ stype := .typeSec, nameErr := none, processErr := some 7, exhausted := true }]
    (.sectionPayload 7) (by decide)

/-- Claim C10: matching a non-custom section leaves the expected section id
unchanged (the source sets it back to the section just seen), so the loop
continues from the same id and consecutive duplicate sections are accepted
and processed again — shown generally and on a concrete double memory
section. -/
theorem c10_duplicate_sections :
    (∀ (dbg : Bool) (cur s : SectionType) (rest : List RawSection),
        s ≠ .custom → advanceFrom cur s = some s →
        readLoop dbg cur (goodSection s :: rest) =
          (match readLoop dbg s rest with
           | .ok tr => .ok (s :: tr)
           | .fail e => .fail e
           | .panicked msg => .panicked msg))
    ∧ (∀ s : SectionType, s ≠ .custom → advanceFrom s s = some s)
    ∧ readLoop false .typeSec [goodSection .memSec, goodSection .memSec]
        = .ok [.memSec, .memSec] := by
  refine ⟨?_, by decide, by decide⟩
  intro dbg cur s rest hs hadv
  simp [readLoop, goodSection, if_neg hs, hadv]

/-- Witness for C10: the general step applied to a concrete duplicated
global section after a table section. -/
theorem c10_duplicate_sections_witness :
    readLoop false .tableSec (goodSection .globalSec :: [goodSection .globalSec]) =
      (match readLoop false .globalSec [goodSection .globalSec] with
       | .ok tr => .ok (SectionType.globalSec :: tr)
       | .fail e => .fail e
       | .panicked msg => .panicked msg) :=
  c10_duplicate_sections.1 false .tableSec .globalSec [goodSection .globalSec]
    (by decide) (by decide)

/-! ## Claims about the instantiation pipeline -/

/-- Claim C2: when the offset expression of a segment evaluates to a single
value, `evaluate_offset_expression` returns that value as the unsigned
offset if it is an i32, and fails with "Type mismatch in offset expression"
for every other value kind. -/
theorem c2_offset_expression : ∀ (m : Module) (e : List ConstInstr) (v : StackEntry),
    evaluateConstantExpression e m.globals 1 = .ok [v] →
    (∀ c, v = .i32 c → evaluateOffsetExpression m e = .ok c)
    ∧ ((∀ c, v ≠ .i32 c) → evaluateOffsetExpression m e = .error "Type mismatch in offset expression") := by
  intro m e v h
  constructor
  · intro c hc
    subst hc
    simp [evaluateOffsetExpression, h]
  · intro hne
    cases v with
    | i32 c => exact absurd rfl (hne c)
    | i64 c => simp [evaluateOffsetExpression, h]
    | f32 b => simp [evaluateOffsetExpression, h]
    | f64 b => simp [evaluateOffsetExpression, h]

/-- Witness for C2 at concrete i32 and f32 offset expressions. -/
theorem c2_offset_expression_witness :
    evaluateOffsetExpression Module.empty [ConstInstr.i32Const 16] = .ok 16
    ∧ evaluateOffsetExpression Module.empty [ConstInstr.f32Const 3] = .error "Type mismatch in offset expression" :=
  ⟨(c2_offset_expression Module.empty [ConstInstr.i32Const 16] (.i32 16) rfl).1 16 rfl,
   (c2_offset_expression Module.empty [ConstInstr.f32Const 3] (.f32 3) rfl).2
     (fun c hc => by simp at hc)⟩

/-- Claim C5: a module whose store holds two memories fails pre-execute
validation — but with the source's misspelt message "Too many memoryies",
not the claim's "too many memories". -/
theorem c5_too_many_memories :
    resolveRawModule
      { types := [], typeidx := [], funcs := [], tables := [],
        mems := [{ minPages := 0, maxPages := none }, { minPages := 0, maxPages := none }],
        globals := [], elem := [], data := [], start := none, imports := [], exports := [] }
      failResolver okCall = (.error "Too many memoryies", 0, 0)
    ∧ "Too many memoryies" ≠ "too many memories" :=
  ⟨rfl, by decide⟩

/-- If any function index of the list is out of range, the collection pass
of `initialize_table_element` fails with "Function index out of range". -/
theorem lookupFunctions_out_of_range : ∀ (is2 : List Nat) (fns : List Callable),
    (∃ i ∈ is2, fns.length ≤ i) →
    lookupFunctions fns is2 = .error "Function index out of range" := by
  intro is2
  induction is2 with
  | nil =>
    intro fns h
    rcases h with ⟨i, hi, _⟩
    simp at hi
  | cons j rest ih =>
    intro fns h
    rcases h with ⟨i, hi, hge⟩
    simp only [List.mem_cons] at hi
    by_cases hj : j < fns.length
    · have hr : ∃ i2 ∈ rest, fns.length ≤ i2 := by
        rcases hi with rfl | hi2
        · omega
        · exact ⟨i, hi2, hge⟩
      simp only [lookupFunctions, dif_pos hj]
      rw [ih fns hr]
    · simp only [lookupFunctions, dif_neg hj]

/-- Claim C9: `initialize_table_element` resolves every function index of
the element segment before writing: if the table index is valid and the
offset evaluates but some function index is out of range, it returns the
"Function index out of range" error and `set_entries` was never invoked
(the boolean component), so the target table is unchanged. -/
theorem c9_element_atomicity : ∀ (m : Module) (el : Element) (off : Nat),
    el.tableIdx < m.tables.length →
    evaluateOffsetExpression m el.expr = .ok off →
    (∃ i ∈ el.funcIdx, m.functions.length ≤ i) →
    initializeTableElement m el = (.error "Function index out of range", false) := by
  intro m el off hidx hoff hbad
  simp only [initializeTableElement, dif_pos hidx, hoff]
  rw [lookupFunctions_out_of_range el.funcIdx m.functions hbad]

/-- Witness for C9: a table with no functions and an element naming
function index 5. -/
theorem c9_element_atomicity_witness :
    initializeTableElement
      { functions := [], tables := [Table.new { min := 0, max := none }],
        memories := [], globals := [], exports := [], funcTypes := [] }
      { tableIdx := 0, expr := [ConstInstr.i32Const 0], funcIdx := [5] }
      = (.error "Function index out of range", false) :=
  c9_element_atomicity
    { functions := [], tables := [Table.new { min := 0, max := none }],
      memories := [], globals := [], exports := [], funcTypes := [] }
    { tableIdx := 0, expr := [ConstInstr.i32Const 0], funcIdx := [5] }
    0 (by decide) rfl ⟨5, by decide, by decide⟩

/-- The globals of modules produced by `Except.map`-style results of the
pipeline: project the global values on success. -/
def resultGlobalValues : Except String Module → Except String (List StackEntry)
  | .error e => .error e
  | .ok m => .ok (m.globals.map Global.value)

/-- The raw module of the C1 counterexample: no imports; two local globals,
the second reading global index 0 — a locally defined global — via
`global.get`. -/
def c1raw : RawModule :=
  { types := [], typeidx := [], funcs := [], tables := [], mems := [],
    globals := [{ gtype := { kind := .i32, mutable := false }, init := [.i32Const 5] },
                { gtype := { kind := .i32, mutable := false }, init := [.globalGet 0] }],
    elem := [], data := [], start := none, imports := [], exports := [] }

/-- The same module with the first global's constant changed to 7. -/
def c1raw7 : RawModule :=
  { types := [], typeidx := [], funcs := [], tables := [], mems := [],
    globals := [{ gtype := { kind := .i32, mutable := false }, init := [.i32Const 7] },
                { gtype := { kind := .i32, mutable := false }, init := [.globalGet 0] }],
    elem := [], data := [], start := none, imports := [], exports := [] }

/-- Counterexample for claim C1: with no imported globals at all, a local
global whose init expression is `global.get 0` instantiates successfully
and observes the previously added local global — and its value follows that
local global (5 in the first run, 7 in the second), so init evaluation does
not depend only on the imported globals. -/
theorem c1_counterexample :
    resultGlobalValues (resolveRawModule c1raw failResolver okCall).1 = .ok [.i32 5, .i32 5]
    ∧ resultGlobalValues (resolveRawModule c1raw7 failResolver okCall).1 = .ok [.i32 7, .i32 7] :=
  ⟨rfl, rfl⟩

/-- Claim C1 (amended): during step 5 each local global's init expression is
evaluated against the store built so far — the imported globals followed by
the local globals added before it; `global.get` performs only a bounds
check on that sequence, so an init expression can observe earlier local
globals (and imported ones) but nothing added later.  Stated as: the
`add_globals` loop splits over list append with the base extended by the
intermediate results; `add_globals` is that loop run from the module's
globals; and `global.get` reads exactly the visible sequence. -/
theorem c1_local_global_visibility :
    (∀ (base : List Global) (xs ys : List GlobalDef),
        evalLocalGlobals base (xs ++ ys) =
          (match evalLocalGlobals base xs with
           | .error e => .error e
           | .ok ls =>
             match evalLocalGlobals (base ++ ls) ys with
             | .error e => .error e
             | .ok ms => .ok (ls ++ ms)))
    ∧ (∀ (m : Module) (gs : List GlobalDef),
        addGlobals m gs =
          Except.map (fun ls => { m with globals := m.globals ++ ls }) (evalLocalGlobals m.globals gs))
    ∧ (∀ (gs : List Global) (j : Nat) (rest : List ConstInstr) (st : List StackEntry),
        evalConstInstrs gs (ConstInstr.globalGet j :: rest) st =
          (if h : j < gs.length then evalConstInstrs gs rest ((gs.get ⟨j, h⟩).value :: st)
           else .error "Global index out of range")) := by
  refine ⟨?_, ?_, ?_⟩
  · intro base xs
    induction xs generalizing base with
    | nil =>
      intro ys
      simp only [List.nil_append, evalLocalGlobals, List.append_nil]
      cases h : evalLocalGlobals base ys <;> simp
    | cons g xs ih =>
      intro ys
      simp only [List.cons_append, evalLocalGlobals, List.append_eq]
      cases hg : evalOneGlobal base g with
      | error e => rfl
      | ok gl =>
        dsimp only
        rw [ih (base ++ [gl]) ys]
        cases hxs : evalLocalGlobals (base ++ [gl]) xs with
        | error e => rfl
        | ok ls =>
          simp only [List.append_assoc, List.singleton_append]
          cases hys : evalLocalGlobals (base ++ gl :: ls) ys <;> simp
  · intro m gs
    simp only [addGlobals]
    cases h : evalLocalGlobals m.globals gs <;> simp [Except.map]
  · intro gs j rest st
    rfl

/-- Claim C6: once everything before the start step succeeded, a start
index within the functions sequence is invoked exactly once — a trap
becomes the instantiation error and no module is returned, a normal return
yields the module; an out-of-range start index fails with "Start function
not found" without any invocation; no start means no invocation. -/
theorem c6_start_execution : ∀ (raw : RawModule) (r : Resolver) (cf : Callable → Except String Unit)
    (m : Module) (n : Nat),
    preStart raw r = (.ok m, n) →
    (raw.start = none → resolveRawModule raw r cf = (.ok m, n, 0))
    ∧ (∀ (s : Nat) (hs : s < m.functions.length), raw.start = some s →
        (resolveRawModule raw r cf).2.2 = 1
        ∧ (∀ e, cf (m.functions.get ⟨s, hs⟩) = .error e → (resolveRawModule raw r cf).1 = .error e)
        ∧ (∀ u, cf (m.functions.get ⟨s, hs⟩) = .ok u → resolveRawModule raw r cf = (.ok m, n, 1)))
    ∧ (∀ s : Nat, raw.start = some s → m.functions.length ≤ s →
        resolveRawModule raw r cf = (.error "Start function not found", n, 0)) := by
  intro raw r cf m n h
  refine ⟨?_, ?_, ?_⟩
  · intro hnone
    simp [resolveRawModule, h, hnone]
  · intro s hs hsome
    simp only [resolveRawModule, h, hsome]
    rw [dif_pos hs]
    refine ⟨?_, ?_, ?_⟩
    · cases hc : cf (m.functions.get ⟨s, hs⟩) <;> simp [hc]
    · intro e he
      rw [he]
    · intro u hu
      rw [hu]
  · intro s hsome hge
    simp only [resolveRawModule, h, hsome]
    rw [dif_neg (by omega)]

/-- A raw module with a single trivial local function used as start. -/
def raw6 : RawModule :=
  { types := [{ params := [], results := [] }], typeidx := [0],
    funcs := [{ localDecls := [], body := [] }], tables := [], mems := [],
    globals := [], elem := [], data := [], start := some 0, imports := [], exports := [] }

/-- The store `raw6` builds before its start function runs. -/
def mod6 : Module :=
  { functions := [.wasm { params := [], results := [] } { localDecls := [], body := [] }],
    tables := [], memories := [], globals := [], exports := [],
    funcTypes := [{ params := [], results := [] }] }

/-- An interpreter stand-in whose calls always trap. -/
def trapCall : Callable → Except String Unit := fun _ => .error "start trapped"

/-- Witness for C6: instantiating `raw6` under a trapping interpreter calls
the start function once and surfaces the trap as the instantiation error. -/
theorem c6_start_execution_witness :
    (resolveRawModule raw6 failResolver trapCall).2.2 = 1
    ∧ (resolveRawModule raw6 failResolver trapCall).1 = .error "start trapped" := by
  have h := (c6_start_execution raw6 failResolver trapCall mod6 0 rfl).2.1 0 (by decide) rfl
  exact ⟨h.1, h.2.1 "start trapped" rfl⟩

/-! ## Imports-first ordering (claim C7) -/

/-- The function handles the resolver produces for the function imports of
the list, in declaration order (calls that fail are dropped; on a
successful resolve pass none fail). -/
def funcImportHandles (types : List FuncType) (r : Resolver) : List Import → List Callable
  | [] => []
  | imp :: rest =>
    match imp.desc with
    | .typeIdx t =>
      if h : t < types.length then
        match r.resolveFunction imp.modName imp.name (types.get ⟨t, h⟩) with
        | .ok c => c :: funcImportHandles types r rest
        | .error _ => funcImportHandles types r rest
      else funcImportHandles types r rest
    | _ => funcImportHandles types r rest

/-- The table handles the resolver produces for the table imports, in
declaration order. -/
def tableImportHandles (r : Resolver) : List Import → List Table
  | [] => []
  | imp :: rest =>
    match imp.desc with
    | .tableType tt =>
      match r.resolveTable imp.modName imp.name tt with
      | .ok tb => tb :: tableImportHandles r rest
      | .error _ => tableImportHandles r rest
    | _ => tableImportHandles r rest

/-- The memory handles the resolver produces for the memory imports, in
declaration order. -/
def memImportHandles (r : Resolver) : List Import → List Memory
  | [] => []
  | imp :: rest =>
    match imp.desc with
    | .memType mt =>
      match r.resolveMemory imp.modName imp.name mt with
      | .ok mem => mem :: memImportHandles r rest
      | .error _ => memImportHandles r rest
    | _ => memImportHandles r rest

/-- The global handles the resolver produces for the global imports, in
declaration order. -/
def globalImportHandles (r : Resolver) : List Import → List Global
  | [] => []
  | imp :: rest =>
    match imp.desc with
    | .globalType gt =>
      match r.resolveGlobal imp.modName imp.name gt with
      | .ok g => g :: globalImportHandles r rest
      | .error _ => globalImportHandles r rest
    | _ => globalImportHandles r rest

/-- The local callables of `add_functions`, in definition order. -/
def localCallables (types : List FuncType) : List (Nat × Func) → List Callable
  | [] => []
  | (t, f) :: rest =>
    if h : t < types.length then
      Callable.wasm (types.get ⟨t, h⟩) f :: localCallables types rest
    else localCallables types rest

/-- A successful `resolve_imports` appends exactly the per-kind resolver
handles, in declaration order, and touches nothing else. -/
theorem resolveImports_ok : ∀ (imports : List Import) (m : Module) (types : List FuncType)
    (r : Resolver) (m2 : Module) (n : Nat),
    resolveImports m types r imports = (.ok m2, n) →
    m2.functions = m.functions ++ funcImportHandles types r imports
    ∧ m2.tables = m.tables ++ tableImportHandles r imports
    ∧ m2.memories = m.memories ++ memImportHandles r imports
    ∧ m2.globals = m.globals ++ globalImportHandles r imports
    ∧ m2.exports = m.exports ∧ m2.funcTypes = m.funcTypes := by
  intro imports
  induction imports with
  | nil =>
    intro m types r m2 n h
    simp only [resolveImports] at h
    injection h with h1 h2
    injection h1 with h1
    subst h1
    simp [funcImportHandles, tableImportHandles, memImportHandles, globalImportHandles]
  | cons imp rest ih =>
    intro m types r m2 n h
    simp only [resolveImports] at h
    cases hd : imp.desc with
    | typeIdx t =>
      rw [hd] at h
      dsimp only at h
      by_cases ht : t < types.length
      · rw [dif_pos ht] at h
        cases hr : r.resolveFunction imp.modName imp.name (types.get ⟨t, ht⟩) with
        | error e =>
          rw [hr] at h
          dsimp only at h
          simp at h
        | ok c =>
          rw [hr] at h
          dsimp only at h
          cases hrec : resolveImports { m with functions := m.functions ++ [c] } types r rest with
          | mk res k =>
            rw [hrec] at h
            dsimp only at h
            injection h with h1 h2
            subst h1
            obtain ⟨f1, t1, me1, g1, e1, ft1⟩ := ih _ types r m2 k hrec
            simp only [funcImportHandles, tableImportHandles, memImportHandles,
              globalImportHandles, hd, dif_pos ht, hr]
            refine ⟨?_, t1, me1, g1, e1, ft1⟩
            rw [f1]
            simp
      · rw [dif_neg ht] at h
        simp at h
    | tableType tt =>
      rw [hd] at h
      dsimp only at h
      cases hr : r.resolveTable imp.modName imp.name tt with
      | error e =>
        rw [hr] at h
        dsimp only at h
        simp at h
      | ok c =>
        rw [hr] at h
        dsimp only at h
        cases hrec : resolveImports { m with tables := m.tables ++ [c] } types r rest with
        | mk res k =>
          rw [hrec] at h
          dsimp only at h
          injection h with h1 h2
          subst h1
          obtain ⟨f1, t1, me1, g1, e1, ft1⟩ := ih _ types r m2 k hrec
          simp only [funcImportHandles, tableImportHandles, memImportHandles,
            globalImportHandles, hd, hr]
          refine ⟨f1, ?_, me1, g1, e1, ft1⟩
          rw [t1]
          simp
    | memType mt =>
      rw [hd] at h
      dsimp only at h
      cases hr : r.resolveMemory imp.modName imp.name mt with
      | error e =>
        rw [hr] at h
        dsimp only at h
        simp at h
      | ok c =>
        rw [hr] at h
        dsimp only at h
        cases hrec : resolveImports { m with memories := m.memories ++ [c] } types r rest with
        | mk res k =>
          rw [hrec] at h
          dsimp only at h
          injection h with h1 h2
          subst h1
          obtain ⟨f1, t1, me1, g1, e1, ft1⟩ := ih _ types r m2 k hrec
          simp only [funcImportHandles, tableImportHandles, memImportHandles,
            globalImportHandles, hd, hr]
          refine ⟨f1, t1, ?_, g1, e1, ft1⟩
          rw [me1]
          simp
    | globalType gt =>
      rw [hd] at h
      dsimp only at h
      cases hr : r.resolveGlobal imp.modName imp.name gt with
      | error e =>
        rw [hr] at h
        dsimp only at h
        simp at h
      | ok c =>
        rw [hr] at h
        dsimp only at h
        cases hrec : resolveImports { m with globals := m.globals ++ [c] } types r rest with
        | mk res k =>
          rw [hrec] at h
          dsimp only at h
          injection h with h1 h2
          subst h1
          obtain ⟨f1, t1, me1, g1, e1, ft1⟩ := ih _ types r m2 k hrec
          simp only [funcImportHandles, tableImportHandles, memImportHandles,
            globalImportHandles, hd, hr]
          refine ⟨f1, t1, me1, ?_, e1, ft1⟩
          rw [g1]
          simp

/-- A successful `add_functions` appends exactly the local callables, in
definition order, and touches nothing else. -/
theorem addFunctions_ok : ∀ (ps : List (Nat × Func)) (m : Module) (types : List FuncType)
    (m2 : Module),
    addFunctions m types ps = .ok m2 →
    m2.functions = m.functions ++ localCallables types ps
    ∧ m2.tables = m.tables ∧ m2.memories = m.memories ∧ m2.globals = m.globals
    ∧ m2.exports = m.exports ∧ m2.funcTypes = m.funcTypes := by
  intro ps
  induction ps with
  | nil =>
    intro m types m2 h
    simp only [addFunctions] at h
    injection h with h1
    subst h1
    simp [localCallables]
  | cons p rest ih =>
    intro m types m2 h
    cases p with
    | mk t f =>
      simp only [addFunctions] at h
      by_cases ht : t < types.length
      · rw [dif_pos ht] at h
        obtain ⟨f1, t1, me1, g1, e1, ft1⟩ := ih _ types m2 h
        simp only [localCallables, dif_pos ht]
        refine ⟨?_, t1, me1, g1, e1, ft1⟩
        rw [f1]
        simp
      · rw [dif_neg ht] at h
        simp at h

/-- A successful `collect_exports` changes only the export map. -/
theorem collectExports_ok : ∀ (exs : List Export) (m m2 : Module),
    collectExports m exs = .ok m2 →
    m2.functions = m.functions ∧ m2.tables = m.tables ∧ m2.memories = m.memories
    ∧ m2.globals = m.globals ∧ m2.funcTypes = m.funcTypes := by
  intro exs
  induction exs with
  | nil =>
    intro m m2 h
    simp only [collectExports] at h
    injection h with h1
    subst h1
    exact ⟨rfl, rfl, rfl, rfl, rfl⟩
  | cons ex rest ih =>
    intro m m2 h
    simp only [collectExports] at h
    cases hd : ex.d with
    | func idx =>
      rw [hd] at h
      dsimp only at h
      by_cases hi : idx < m.functions.length
      · rw [dif_pos hi] at h
        have h3 := ih _ _ h
        exact h3
      · rw [dif_neg hi] at h
        simp at h
    | table idx =>
      rw [hd] at h
      dsimp only at h
      by_cases hi : idx < m.tables.length
      · rw [dif_pos hi] at h
        have h3 := ih _ _ h
        exact h3
      · rw [dif_neg hi] at h
        simp at h
    | mem idx =>
      rw [hd] at h
      dsimp only at h
      by_cases hi : idx < m.memories.length
      · rw [dif_pos hi] at h
        have h3 := ih _ _ h
        exact h3
      · rw [dif_neg hi] at h
        simp at h
    | global idx =>
      rw [hd] at h
      dsimp only at h
      by_cases hi : idx < m.globals.length
      · rw [dif_pos hi] at h
        have h3 := ih _ _ h
        exact h3
      · rw [dif_neg hi] at h
        simp at h

/-- Setting a position of a list to the element already there is the
identity. -/
theorem set_get_self {α : Type} : ∀ (l : List α) (i : Nat) (h : i < l.length),
    l.set i (l.get ⟨i, h⟩) = l := by
  intro l
  induction l with
  | nil => intro i h; simp at h
  | cons a l ih =>
    intro i h
    cases i with
    | zero => rfl
    | succ j =>
      simp only [List.set, List.get_cons_succ]
      rw [ih j (by simpa using h)]

/-- Overwriting a position with an element that agrees under `f` with the
element already there preserves the map of `f`. -/
theorem map_set_congr {α β : Type} (f : α → β) : ∀ (l : List α) (i : Nat) (h : i < l.length)
    (x : α), f x = f (l.get ⟨i, h⟩) → (l.set i x).map f = l.map f := by
  intro l
  induction l with
  | nil => intro i h; simp at h
  | cons a l ih =>
    intro i h x hf
    cases i with
    | zero =>
      simp only [List.set, List.map]
      rw [show f x = f a from hf]
    | succ j =>
      simp only [List.set, List.map]
      rw [ih j (by simpa using h) x hf]

/-- Replacing a table by an entries-update of itself preserves the map of
table types. -/
theorem map_ttype_set : ∀ (ts : List Table) (i : Nat) (h : i < ts.length) (off : Nat)
    (fs : List Callable),
    (ts.set i (Table.setEntries (ts.get ⟨i, h⟩) off fs)).map Table.ttype = ts.map Table.ttype := by
  intro ts i h off fs
  exact map_set_congr Table.ttype ts i h _ rfl

/-- `set_data` preserves the memory's declared type. -/
theorem setData_mtype : ∀ (mem : Memory) (off : Nat) (bs : List Nat) (mem2 : Memory),
    Memory.setData mem off bs = .ok mem2 → mem2.mtype = mem.mtype := by
  intro mem off bs mem2 h
  simp only [Memory.setData] at h
  by_cases hle : off + bs.length ≤ mem.data.length
  · rw [if_pos hle] at h
    injection h with h1
    subst h1
    rfl
  · rw [if_neg hle] at h
    simp at h

/-- A fresh table per declared type: the type map is the declaration
list. -/
theorem map_new_ttype : ∀ ts : List TableType, (ts.map Table.new).map Table.ttype = ts := by
  intro ts
  induction ts with
  | nil => rfl
  | cons t rest ih =>
    simp only [List.map]
    rw [ih]
    rfl

/-- A fresh memory per declared type: the type map is the declaration
list. -/
theorem map_new_mtype : ∀ ms : List MemType, (ms.map Memory.new).map Memory.mtype = ms := by
  intro ms
  induction ms with
  | nil => rfl
  | cons t rest ih =>
    simp only [List.map]
    rw [ih]
    rfl

/-- A successful `add_globals` appends the evaluated locals and touches
nothing else. -/
theorem addGlobals_ok : ∀ (m : Module) (gs : List GlobalDef) (m2 : Module),
    addGlobals m gs = .ok m2 →
    evalLocalGlobals m.globals gs = .ok (m2.globals.drop m.globals.length)
    ∧ m2.globals.take m.globals.length = m.globals
    ∧ m2.functions = m.functions ∧ m2.tables = m.tables ∧ m2.memories = m.memories
    ∧ m2.exports = m.exports ∧ m2.funcTypes = m.funcTypes := by
  intro m gs m2 h
  simp only [addGlobals] at h
  cases hev : evalLocalGlobals m.globals gs with
  | error e => rw [hev] at h; simp at h
  | ok ls =>
    rw [hev] at h
    injection h with h1
    subst h1
    dsimp only
    refine ⟨?_, List.take_left m.globals ls, rfl, rfl, rfl, rfl, rfl⟩
    rw [List.drop_left]

/-- A successful element-initialization pass preserves every sequence of
the store except the entries of the target tables — in particular the
table-type map is unchanged. -/
theorem initializeTableElements_ok : ∀ (els : List Element) (m m2 : Module),
    initializeTableElements m els = .ok m2 →
    m2.functions = m.functions ∧ m2.globals = m.globals ∧ m2.memories = m.memories
    ∧ m2.exports = m.exports ∧ m2.funcTypes = m.funcTypes
    ∧ m2.tables.map Table.ttype = m.tables.map Table.ttype := by
  intro els
  induction els with
  | nil =>
    intro m m2 h
    simp only [initializeTableElements] at h
    injection h with h1
    subst h1
    exact ⟨rfl, rfl, rfl, rfl, rfl, rfl⟩
  | cons el rest ih =>
    intro m m2 h
    simp only [initializeTableElements, initializeTableElement] at h
    by_cases hidx : el.tableIdx < m.tables.length
    · rw [dif_pos hidx] at h
      cases hoff : evaluateOffsetExpression m el.expr with
      | error e => rw [hoff] at h; dsimp only at h; simp at h
      | ok off =>
        rw [hoff] at h
        dsimp only at h
        cases hlk : lookupFunctions m.functions el.funcIdx with
        | error e => rw [hlk] at h; dsimp only at h; simp at h
        | ok fs =>
          rw [hlk] at h
          dsimp only at h
          have h3 := ih _ _ h
          obtain ⟨f1, g1, me1, e1, ft1, t1⟩ := h3
          refine ⟨f1, g1, me1, e1, ft1, ?_⟩
          exact t1.trans (map_ttype_set m.tables el.tableIdx hidx off fs)
    · rw [dif_neg hidx] at h
      dsimp only at h
      simp at h

/-- A successful data-initialization pass preserves every sequence of the
store except the bytes of the target memories — in particular the
memory-type map is unchanged. -/
theorem initializeMemory_ok : ∀ (ds : List Data) (m m2 : Module),
    initializeMemory m ds = .ok m2 →
    m2.functions = m.functions ∧ m2.globals = m.globals ∧ m2.tables = m.tables
    ∧ m2.exports = m.exports ∧ m2.funcTypes = m.funcTypes
    ∧ m2.memories.map Memory.mtype = m.memories.map Memory.mtype := by
  intro ds
  induction ds with
  | nil =>
    intro m m2 h
    simp only [initializeMemory] at h
    injection h with h1
    subst h1
    exact ⟨rfl, rfl, rfl, rfl, rfl, rfl⟩
  | cons d rest ih =>
    intro m m2 h
    simp only [initializeMemory, initializeMemoryData] at h
    by_cases hidx : d.memIdx < m.memories.length
    · rw [dif_pos hidx] at h
      cases hoff : evaluateOffsetExpression m d.expr with
      | error e => rw [hoff] at h; dsimp only at h; simp at h
      | ok off =>
        rw [hoff] at h
        dsimp only at h
        cases hsd : Memory.setData (m.memories.get ⟨d.memIdx, hidx⟩) off d.bytes with
        | error e => rw [hsd] at h; dsimp only at h; simp at h
        | ok mem2 =>
          rw [hsd] at h
          dsimp only at h
          have h3 := ih _ _ h
          obtain ⟨f1, g1, t1, e1, ft1, me1⟩ := h3
          refine ⟨f1, g1, t1, e1, ft1, ?_⟩
          refine me1.trans (map_set_congr Memory.mtype m.memories d.memIdx hidx mem2 ?_)
          exact setData_mtype _ off d.bytes mem2 hsd
    · rw [dif_neg hidx] at h
      dsimp only at h
      simp at h

/-- Steps 1-5 produce exactly the imports-first sequences: resolver handles
per kind in declaration order, followed by the local definitions in
definition order. -/
theorem buildStore_ok : ∀ (raw : RawModule) (r : Resolver) (m5 : Module) (n : Nat),
    buildStore raw r = (.ok m5, n) →
    m5.functions = funcImportHandles raw.types r raw.imports
      ++ localCallables raw.types (raw.typeidx.zip raw.funcs)
    ∧ m5.globals.take (globalImportHandles r raw.imports).length = globalImportHandles r raw.imports
    ∧ evalLocalGlobals (globalImportHandles r raw.imports) raw.globals
        = .ok (m5.globals.drop (globalImportHandles r raw.imports).length)
    ∧ m5.tables = tableImportHandles r raw.imports ++ raw.tables.map Table.new
    ∧ m5.memories = memImportHandles r raw.imports ++ raw.mems.map Memory.new := by
  intro raw r m5 n h
  simp only [buildStore] at h
  cases hri : resolveImports Module.empty raw.types r raw.imports with
  | mk rres rn =>
    rw [hri] at h
    cases rres with
    | error e => dsimp only at h; simp at h
    | ok m1 =>
      dsimp only at h
      cases haf : addFunctions m1 raw.types (raw.typeidx.zip raw.funcs) with
      | error e => rw [haf] at h; dsimp only at h; simp at h
      | ok m2 =>
        rw [haf] at h
        dsimp only at h
        cases hag : addGlobals (addMemories (addTables m2 raw.tables) raw.mems) raw.globals with
        | error e => rw [hag] at h; dsimp only at h; simp at h
        | ok m5b =>
          rw [hag] at h
          dsimp only at h
          injection h with h1 h2
          injection h1 with h1
          subst h1
          obtain ⟨rf, rt, rm, rg, _, _⟩ := resolveImports_ok raw.imports Module.empty raw.types r m1 rn hri
          obtain ⟨af, at2, am2, ag2, _, _⟩ := addFunctions_ok (raw.typeidx.zip raw.funcs) m1 raw.types m2 haf
          obtain ⟨gev, gtk, gf, gt, gm, _, _⟩ := addGlobals_ok (addMemories (addTables m2 raw.tables) raw.mems) raw.globals m5b hag
          have hm4g : (addMemories (addTables m2 raw.tables) raw.mems).globals
              = globalImportHandles r raw.imports := by
            show m2.globals = globalImportHandles r raw.imports
            rw [ag2, rg]
            simp [Module.empty]
          refine ⟨?_, ?_, ?_, ?_, ?_⟩
          · rw [gf]
            show m2.functions = _
            rw [af, rf]
            simp [Module.empty]
          · rw [hm4g] at gtk
            exact gtk
          · rw [hm4g] at gev
            exact gev
          · rw [gt]
            show m2.tables ++ raw.tables.map Table.new = _
            rw [at2, rt]
            simp [Module.empty]
          · rw [gm]
            show m2.memories ++ raw.mems.map Memory.new = _
            rw [am2, rm]
            simp [Module.empty]

/-- Claim C7: in every successfully instantiated module, the functions
sequence is exactly the resolver's function handles in import declaration
order followed by the local callables in definition order, and the same
imports-first-then-local discipline holds for globals (prefix = imported
handles, suffix = the local init results in order), tables and memories
(their declared-type maps split as imported handles followed by the local
declarations). -/
theorem c7_imports_first : ∀ (raw : RawModule) (r : Resolver) (cf : Callable → Except String Unit)
    (m : Module) (n k : Nat),
    resolveRawModule raw r cf = (.ok m, n, k) →
    m.functions = funcImportHandles raw.types r raw.imports
      ++ localCallables raw.types (raw.typeidx.zip raw.funcs)
    ∧ m.globals.take (globalImportHandles r raw.imports).length = globalImportHandles r raw.imports
    ∧ evalLocalGlobals (globalImportHandles r raw.imports) raw.globals
        = .ok (m.globals.drop (globalImportHandles r raw.imports).length)
    ∧ m.tables.map Table.ttype = (tableImportHandles r raw.imports).map Table.ttype ++ raw.tables
    ∧ m.memories.map Memory.mtype = (memImportHandles r raw.imports).map Memory.mtype ++ raw.mems := by
  intro raw r cf m n k h
  simp only [resolveRawModule] at h
  cases hpre : preStart raw r with
  | mk res n2 =>
    rw [hpre] at h
    cases res with
    | error e => dsimp only at h; simp at h
    | ok m9 =>
      dsimp only at h
      have hm : m9 = m := by
        cases hst : raw.start with
        | none =>
          rw [hst] at h
          dsimp only at h
          exact Except.ok.inj (congrArg Prod.fst h)
        | some s =>
          rw [hst] at h
          dsimp only at h
          by_cases hs : s < m9.functions.length
          · rw [dif_pos hs] at h
            cases hc : cf (m9.functions.get ⟨s, hs⟩) with
            | error e => rw [hc] at h; dsimp only at h; simp at h
            | ok u =>
              rw [hc] at h
              dsimp only at h
              exact Except.ok.inj (congrArg Prod.fst h)
          · rw [dif_neg hs] at h
            simp at h
      subst hm
      simp only [preStart] at hpre
      cases hbs : buildStore raw r with
      | mk bres bn =>
        rw [hbs] at hpre
        cases bres with
        | error e => dsimp only at hpre; simp at hpre
        | ok m5 =>
          dsimp only at hpre
          cases hce : collectExports m5 raw.exports with
          | error e => rw [hce] at hpre; dsimp only at hpre; simp at hpre
          | ok m6 =>
            rw [hce] at hpre
            dsimp only at hpre
            cases hv : preExecuteValidate (addFuncTypes m6 raw.types) with
            | error e => rw [hv] at hpre; dsimp only at hpre; simp at hpre
            | ok u =>
              rw [hv] at hpre
              dsimp only at hpre
              cases hte : initializeTableElements (addFuncTypes m6 raw.types) raw.elem with
              | error e => rw [hte] at hpre; dsimp only at hpre; simp at hpre
              | ok m8 =>
                rw [hte] at hpre
                dsimp only at hpre
                cases hmm : initializeMemory m8 raw.data with
                | error e => rw [hmm] at hpre; dsimp only at hpre; simp at hpre
                | ok m9c =>
                  rw [hmm] at hpre
                  dsimp only at hpre
                  injection hpre with hp1 hp2
                  injection hp1 with hp1
                  subst hp1
                  obtain ⟨bf, btk, bev, bt, bm⟩ := buildStore_ok raw r m5 bn hbs
                  obtain ⟨cf1, ct1, cm1, cg1, cft1⟩ := collectExports_ok raw.exports m5 m6 hce
                  obtain ⟨tf, tg, tm, te, tft, tt⟩ := initializeTableElements_ok raw.elem (addFuncTypes m6 raw.types) m8 hte
                  obtain ⟨mf, mg, mt, me2, mft, mm2⟩ := initializeMemory_ok raw.data m8 _ hmm
                  have hfun : m9c.functions = m5.functions := by
                    rw [mf, tf]
                    exact cf1
                  have hgl : m9c.globals = m5.globals := by
                    rw [mg, tg]
                    exact cg1
                  have htab : m9c.tables.map Table.ttype = m5.tables.map Table.ttype := by
                    rw [mt]
                    refine tt.trans ?_
                    show m6.tables.map Table.ttype = _
                    exact congrArg (List.map Table.ttype) ct1
                  have hmem : m9c.memories.map Memory.mtype = m5.memories.map Memory.mtype := by
                    refine mm2.trans ?_
                    rw [tm]
                    show m6.memories.map Memory.mtype = _
                    exact congrArg (List.map Memory.mtype) cm1
                  refine ⟨?_, ?_, ?_, ?_, ?_⟩
                  · rw [hfun]
                    exact bf
                  · rw [hgl]
                    exact btk
                  · rw [hgl]
                    exact bev
                  · rw [htab, bt, List.map_append, map_new_ttype]
                  · rw [hmem, bm, List.map_append, map_new_mtype]

/-- A host that resolves every import with a fixed entity of the requested
kind. -/
def hostResolver : Resolver :=
  { resolveFunction := fun _ _ _ => .ok (.host 42)
    resolveTable := fun _ _ t => .ok (Table.new t)
    resolveMemory := fun _ _ t => .ok (Memory.new t)
    resolveGlobal := fun _ _ gt => .ok { gtype := gt, value := .i32 0 } }

/-- A raw module with one function import followed by one local function. -/
def raw7 : RawModule :=
  { types := [{ params := [.i32], results := [.i32] }], typeidx := [0],
    funcs := [{ localDecls := [], body := [1, 2] }], tables := [], mems := [],
    globals := [], elem := [], data := [], start := none,
    imports := [{ modName := "env", name := "f", desc := .typeIdx 0 }], exports := [] }

/-- The module `raw7` instantiates to: the host handle first, the local
callable second. -/
def mod7 : Module :=
  { functions := [.host 42,
      .wasm { params := [.i32], results := [.i32] } { localDecls := [], body := [1, 2] }],
    tables := [], memories := [], globals := [], exports := [],
    funcTypes := [{ params := [.i32], results := [.i32] }] }

/-- Witness for C7: the concrete instantiation of `raw7` puts the imported
handle before the local callable. -/
theorem c7_imports_first_witness :
    mod7.functions = funcImportHandles raw7.types hostResolver raw7.imports
      ++ localCallables raw7.types (raw7.typeidx.zip raw7.funcs) :=
  (c7_imports_first raw7 hostResolver okCall mod7 1 0 rfl).1
